import Mathlib

/-!
Verification of the antidote asset-inlining library (Go).

The definitions below are a shallow embedding of the repository's code:
`antidote.go` (the curing orchestrator, the per-asset-class cure routines
and `hasExtension`) and the unnamed helper file (`fetch`,
`addHttpProtocolIfNotExists`, `normalizeSourceUrl`).  External
collaborators (Go's `net/url`, `regexp`, `strings`, `net/http`, the
goquery document tree and the builtin `make`) are modelled explicitly,
each with a doc comment saying what it models.  The document tree is
modelled as a sibling list of elements; the three concurrent cure
routines act on disjoint tag classes (`link` / `script` / `img`) and each
unit mutates only its own element, so their combined effect equals the
sequential composition used here.  A Go runtime panic (which crashes the
process, since the panicking code runs in a goroutine) is modelled as an
`Except.error` that propagates to a dedicated `CureResult.panicked`
outcome, kept distinct from an error value returned by `Cure`.
-/

deriving instance DecidableEq for Except

/-! ## Strings: models of the Go `strings` functions used by the code -/

/-- Model of Go `strings.HasPrefix` on rune lists. -/
def startsWithChars (s pre : List Char) : Bool :=
  pre.isPrefixOf s

/-- Model of Go `strings.Contains`: `sub` occurs as a contiguous substring. -/
def containsSub (s sub : List Char) : Bool :=
  match s with
  | [] => sub.isEmpty
  | c :: cs => sub.isPrefixOf (c :: cs) || containsSub cs sub

/-- Model of Go `strings.Contains` on strings. -/
def goContains (s sub : String) : Bool :=
  containsSub s.data sub.data

/-- Model of Go `strings.HasPrefix` on strings. -/
def goStartsWith (s pre : String) : Bool :=
  startsWithChars s.data pre.data

/-- Model of Go `strings.Replace(s, old, new, 1)` on rune lists: replace the
first (leftmost) occurrence of `old` by `new`.  The code only calls this
with the non-empty pattern "//", so Go's special empty-pattern behaviour
does not arise and the empty pattern is treated as matching nothing. -/
def replaceOnceList (old new : List Char) : List Char → List Char
  | [] => []
  | c :: cs =>
    if old ≠ [] ∧ old.isPrefixOf (c :: cs) = true then
      new ++ (c :: cs).drop old.length
    else
      c :: replaceOnceList old new cs

/-- Left-to-right replacement of all non-overlapping occurrences of `old`
by `new`, driven by a fuel counter so the recursion is structural; every
step consumes at least one subject character, so fuel equal to the subject
length (as supplied by `replaceAllList`) is never exhausted. -/
def replaceAllListAux (old new : List Char) : Nat → List Char → List Char
  | 0, s => s
  | _ + 1, [] => []
  | fuel + 1, c :: cs =>
    if old ≠ [] ∧ old.isPrefixOf (c :: cs) = true then
      new ++ replaceAllListAux old new fuel ((c :: cs).drop old.length)
    else
      c :: replaceAllListAux old new fuel cs

/-- Model of Go `strings.Replace(s, old, new, -1)` on rune lists: replace all
non-overlapping occurrences of `old` by `new`, scanning left to right.  The
code only calls this with the non-empty pattern "../". -/
def replaceAllList (old new s : List Char) : List Char :=
  replaceAllListAux old new s.length s

/-- Model of Go `strings.Replace(s, old, new, 1)` on strings. -/
def goReplaceOnce (s old new : String) : String :=
  String.mk (replaceOnceList old.data new.data s.data)

/-- Model of Go `strings.Replace(s, old, new, -1)` on strings. -/
def goReplaceAll (s old new : String) : String :=
  String.mk (replaceAllList old.data new.data s.data)

/-! ## URL parsing: model of the fragment of Go `net/url.Parse` the code uses -/

/-- A parsed URL; `normalizeSourceUrl` and `Cure` only ever read the `Host`
component of the values returned by `url.Parse`, so only it is modelled. -/
structure GoURL where
  Host : String
deriving DecidableEq

/-- Scheme characters per Go `net/url.getScheme`: ASCII letters. -/
def isSchemeAlpha (c : Char) : Bool :=
  (65 ≤ c.toNat && c.toNat ≤ 90) || (97 ≤ c.toNat && c.toNat ≤ 122)

/-- Further scheme characters per Go `net/url.getScheme`: digits, `+`, `-`,
`.` (not allowed as the first character of a scheme). -/
def isSchemeExtra (c : Char) : Bool :=
  (48 ≤ c.toNat && c.toNat ≤ 57) || c == '+' || c == '-' || c == '.'

/-- Result of scanning for a leading `scheme:`. -/
inductive SchemeSplit where
  | noScheme : SchemeSplit
  | schemeRest : List Char → SchemeSplit
  | malformed : SchemeSplit

/-- Modelled from Go `net/url.getScheme`: scan for `scheme:`; a leading `:`
is the "missing protocol scheme" error; a non-scheme character before any
`:` means there is no scheme. The flag records whether we are at the first
character. -/
def getSchemeAux : Bool → List Char → SchemeSplit
  | _, [] => SchemeSplit.noScheme
  | first, c :: cs =>
    if c == ':' then
      if first then SchemeSplit.malformed else SchemeSplit.schemeRest cs
    else if isSchemeAlpha c then
      getSchemeAux false cs
    else if isSchemeExtra c then
      if first then SchemeSplit.noScheme else getSchemeAux false cs
    else
      SchemeSplit.noScheme

/-- Modelled from Go `net/url.Parse`: after the scheme is removed, a host is
present exactly when the remainder begins with `//`; the host then extends
to the next `/` or `?`.  (Userinfo and port refinements of the authority
are not needed by any claim and are left as part of the host text.) -/
def hostFromRest : List Char → String
  | '/' :: '/' :: r => String.mk (r.takeWhile (fun c => c != '/' && c != '?'))
  | _ => ""

/-- True when the string holds an ASCII control character, which Go
`net/url.Parse` rejects. -/
def hasControlChar (s : String) : Bool :=
  s.data.any (fun c => c.toNat < 32 || c.toNat == 127)

/-- Modelled from Go `net/url.Parse` (external collaborator), restricted to
what the code reads from its result: the `Host` component and the
error/success outcome.  The fragment part (after `#`) is split off first,
as in Go; parse failure is modelled for control characters and for a
missing protocol scheme (leading `:`). -/
def urlParse (s : String) : Except String GoURL :=
  if hasControlChar s then
    Except.error "net/url: invalid control character in URL"
  else
    let noFrag := s.data.takeWhile (fun c => c != '#')
    match getSchemeAux true noFrag with
    | SchemeSplit.malformed => Except.error "missing protocol scheme"
    | SchemeSplit.schemeRest rest => Except.ok ⟨hostFromRest rest⟩
    | SchemeSplit.noScheme => Except.ok ⟨hostFromRest noFrag⟩

/-! ## The unnamed helper file: `fetch`, `addHttpProtocolIfNotExists`,
`normalizeSourceUrl` -/

/-- Outcome of one Go `http.Get` call: either a transport error, or a
response carrying a status code and the result of reading its body
(`ioutil.ReadAll` may itself fail). -/
inductive HTTPResult where
  | transportError : String → HTTPResult
  | response : Nat → Except String String → HTTPResult

/-- Embedding of `fetch` (unnamed helper file, lines 10-23): `http.Get`,
then `ioutil.ReadAll` on the body, returning the body as a string.  The
HTTP transport is the function argument `get`.  Note that the status code
of a received response is never examined. -/
def fetch (get : String → HTTPResult) (url : String) : Except String String :=
  match get url with
  | HTTPResult.transportError e => Except.error e
  | HTTPResult.response _ body =>
    match body with
    | Except.error e => Except.error e
    | Except.ok b => Except.ok b

/-- Embedding of `addHttpProtocolIfNotExists` (unnamed helper file, lines
25-31). -/
def addHttpProtocolIfNotExists (url : String) : String :=
  if goContains url "http://" || goContains url "https://" then
    url
  else
    "http://" ++ url

/-- Embedding of `normalizeSourceUrl` (unnamed helper file, lines 35-57):
parse the asset path (for its host component), strip one leading `//`,
strip every `../`, then prefix the origin host when the parsed path has no
host, and finally ensure an explicit protocol. -/
def normalizeSourceUrl (assetPath : String) (origin : GoURL) : Except String String :=
  match urlParse assetPath with
  | Except.error e => Except.error e
  | Except.ok s =>
    let ap1 := if goStartsWith assetPath "//" then goReplaceOnce assetPath "//" "" else assetPath
    let ap2 := goReplaceAll ap1 "../" ""
    if s.Host.length == 0 then
      Except.ok (addHttpProtocolIfNotExists (origin.Host ++ "/" ++ ap2))
    else
      Except.ok (addHttpProtocolIfNotExists ap2)

/-! ## Extension matching: model of Go `regexp.MatchString` and the
embedding of `hasExtension` -/

/-- One compiled pattern character: a literal, or the `.` wildcard. -/
inductive PatChar where
  | lit : Char → PatChar
  | dot : PatChar
deriving DecidableEq

/-- Regexp metacharacters other than `.`; patterns containing any of them
lie outside the modelled fragment. -/
def regexpMetaChars : List Char :=
  ['(', ')', '[', ']', '\x7b', '\x7d', '*', '+', '?', '|', '^', '$', '\\']

/-- Modelled from Go `regexp` compilation (external collaborator),
restricted to the fragment the program exercises: patterns made of literal
characters and the `.` wildcard.  A pattern containing any other regexp
metacharacter is outside the fragment and reported as a pattern error (as
Go does for the structurally invalid ones among them, e.g. a lone `(`). -/
def compilePattern (pat : String) : Except String (List PatChar) :=
  if pat.data.any (fun c => regexpMetaChars.contains c) then
    Except.error ("error parsing regexp: unsupported or invalid pattern: " ++ pat)
  else
    Except.ok (pat.data.map (fun c => if c == '.' then PatChar.dot else PatChar.lit c))

/-- A pattern character against a subject character; Go's `.` matches any
character except newline. -/
def patCharMatches : PatChar → Char → Bool
  | PatChar.lit c, d => c == d
  | PatChar.dot, d => d != '\n'

/-- The compiled pattern matches a prefix of the subject. -/
def matchHere : List PatChar → List Char → Bool
  | [], _ => true
  | _ :: _, [] => false
  | p :: ps, c :: cs => patCharMatches p c && matchHere ps cs

/-- Unanchored search: the compiled pattern matches starting at some
position of the subject. -/
def searchFrom (p : List PatChar) (s : List Char) : Bool :=
  match s with
  | [] => matchHere p []
  | _ :: cs => matchHere p s || searchFrom p cs

/-- Model of Go `regexp.MatchString(pattern, src)` on the fragment above. -/
def matchString (pat src : String) : Except String Bool :=
  match compilePattern pat with
  | Except.error e => Except.error e
  | Except.ok p => Except.ok (searchFrom p src.data)

/-- Embedding of `hasExtension` (antidote.go, lines 251-263): try each
candidate extension in order with `regexp.MatchString`; return the first
that matches, propagate a pattern error, and return the empty string when
none matches. -/
def hasExtension (src : String) : List String → Except String String
  | [] => Except.ok ""
  | ext :: rest =>
    match matchString ext src with
    | Except.error e => Except.error e
    | Except.ok true => Except.ok ext
    | Except.ok false => hasExtension src rest

/-! ## The document tree model and the three cure routines (antidote.go) -/

/-- One element of the document tree: tag, attribute list, and literal text
content (as used by the inline `<style>`/`<script>` nodes the code
inserts).  The tree is modelled as a sibling list of elements; the claims
under verification only concern element retention, removal, adjacent
insertion and attribute rewriting, none of which involve nesting. -/
structure Element where
  tag : String
  attrs : List (String × String)
  content : String
deriving DecidableEq

/-- Model of goquery `Selection.Attr`: the value of the first attribute
with the given name, or none. -/
def getAttr (e : Element) (name : String) : Option String :=
  (e.attrs.find? (fun kv => kv.1 == name)).map (fun kv => kv.2)

/-- Model of goquery `Selection.SetAttr` on the attribute list: update the
first binding of the name in place, or append a new one. -/
def setAttrList (name v : String) : List (String × String) → List (String × String)
  | [] => [(name, v)]
  | (k, w) :: rest =>
    if k == name then (k, v) :: rest else (k, w) :: setAttrList name v rest

/-- Model of goquery `Selection.SetAttr` on an element. -/
def setAttr (e : Element) (name v : String) : Element :=
  ⟨e.tag, setAttrList name v e.attrs, e.content⟩

/-- The inline `<style>` element the CSS cure inserts via
`AfterHtml(fmt.Sprintf("<style>...</style>", source))`. -/
def styleElement (source : String) : Element :=
  ⟨"style", [], source⟩

/-- The inline `<script>` element the JS cure inserts via
`AfterHtml(fmt.Sprintf("<script>...</script>", source))`. -/
def scriptElement (source : String) : Element :=
  ⟨"script", [], source⟩

/-- Embedding of the per-`<link>` unit of `cureCSS` (antidote.go, lines
105-134): on a `link` element with an `href` that matches `.css`,
normalize, fetch, and on success insert the inline style element after the
link and remove the link (their combined effect: the style element stands
where the link stood).  Any error leaves the element untouched. -/
def cureCSSStep (get : String → HTTPResult) (origin : GoURL) (link : Element) : List Element :=
  if link.tag == "link" then
    match getAttr link "href" with
    | none => [link]
    | some href =>
      match hasExtension href [".css"] with
      | Except.error _ => [link]
      | Except.ok matchedExtension =>
        if matchedExtension != "" then
          match normalizeSourceUrl href origin with
          | Except.error _ => [link]
          | Except.ok normalizedHref =>
            match fetch get normalizedHref with
            | Except.error _ => [link]
            | Except.ok source => [styleElement source]
        else
          [link]
  else
    [link]

/-- Embedding of `cureCSS` over the sibling list: goquery's
`Find("link").Each` launches one unit per element of the snapshot
selection and waits for all of them; each unit rewrites only its own
element, so the joint effect is this element-wise rewrite. -/
def cureCSSDoc (get : String → HTTPResult) (origin : GoURL) : List Element → List Element
  | [] => []
  | e :: rest => cureCSSStep get origin e ++ cureCSSDoc get origin rest

/-- Embedding of the per-`<script>` unit of `cureJS` (antidote.go, lines
148-176), exactly parallel to the CSS unit with `src` and `.js`. -/
def cureJSStep (get : String → HTTPResult) (origin : GoURL) (script : Element) : List Element :=
  if script.tag == "script" then
    match getAttr script "src" with
    | none => [script]
    | some src =>
      match hasExtension src [".js"] with
      | Except.error _ => [script]
      | Except.ok matchedExtension =>
        if matchedExtension != "" then
          match normalizeSourceUrl src origin with
          | Except.error _ => [script]
          | Except.ok normalizedSrc =>
            match fetch get normalizedSrc with
            | Except.error _ => [script]
            | Except.ok source => [scriptElement source]
        else
          [script]
  else
    [script]

/-- Embedding of `cureJS` over the sibling list. -/
def cureJSDoc (get : String → HTTPResult) (origin : GoURL) : List Element → List Element
  | [] => []
  | e :: rest => cureJSStep get origin e ++ cureJSDoc get origin rest

/-- Embedding of the `isImageExtension` map (antidote.go, lines 182-195) as
an association list; Go's map iteration order is unspecified and no claim
depends on the order used here. -/
def isImageExtension : List (String × Bool) :=
  [("JPEG", true), ("jpeg", true), ("JPG", true), ("jpg", true),
   ("GIF", true), ("gif", true), ("PNG", true), ("png", true),
   ("BMP", true), ("bmp", true), ("TIFF", true), ("tiff", true)]

/-- Modelled from the Go builtin `make([]string, len, cap)`: a length
larger than the capacity is a run-time panic ("makeslice: cap out of
range"), modelled as the error case; otherwise the slice holds `len`
zero-value strings. -/
def makeSlice (len cap : Nat) : Except String (List String) :=
  if len ≤ cap then
    Except.ok (List.replicate len "")
  else
    Except.error "makeslice: cap out of range"

/-- The base64 alphabet of Go `encoding/base64.StdEncoding`. -/
def base64Alphabet : List Char :=
  "ABCDEFGHIJKLMNOPQRSTUVWXYZabcdefghijklmnopqrstuvwxyz0123456789+/".data

/-- The base64 digit for a 6-bit value. -/
def b64Char (n : Nat) : Char :=
  base64Alphabet.getD n '='

/-- Model of Go `base64.StdEncoding.EncodeToString` on a byte list:
three bytes become four digits, with `=` padding for a final partial
group. -/
def base64Encode : List Nat → String
  | [] => ""
  | [a] =>
    String.mk [b64Char (a / 4), b64Char (a % 4 * 16), '=', '=']
  | [a, b] =>
    String.mk [b64Char (a / 4), b64Char (a % 4 * 16 + b / 16), b64Char (b % 16 * 4), '=']
  | a :: b :: c :: rest =>
    String.mk [b64Char (a / 4), b64Char (a % 4 * 16 + b / 16),
               b64Char (b % 16 * 4 + c / 64), b64Char (c % 64)]
      ++ base64Encode rest

/-- The UTF-8 bytes of one character, modelling Go's `[]byte(source)`
conversion of a string. -/
def utf8Bytes (c : Char) : List Nat :=
  let n := c.toNat
  if n < 128 then [n]
  else if n < 2048 then [192 + n / 64, 128 + n % 64]
  else if n < 65536 then [224 + n / 4096, 128 + n / 64 % 64, 128 + n % 64]
  else [240 + n / 262144, 128 + n / 4096 % 64, 128 + n / 64 % 64, 128 + n % 64]

/-- Model of Go `[]byte(s)`: the UTF-8 bytes of the string. -/
def stringBytes (s : String) : List Nat :=
  s.data.foldr (fun c acc => utf8Bytes c ++ acc) []

/-- The data URL the image cure writes into the `src` attribute:
`data:image/<matched-extension-lowercased>;base64,<base64 of bytes>`. -/
def imageDataUrl (matchedExtension source : String) : String :=
  "data:image/" ++ matchedExtension.toLower ++ ";base64," ++ base64Encode (stringBytes source)

/-- Embedding of the per-`<img>` unit of `cureImages` (antidote.go, lines
205-245).  The unit first builds the candidate list with
`make([]string, len(isImageExtension), 0)` — a length of 12 against a
capacity of 0, which panics at run time; the `Except.error` outcome models
that panic (it crashes the process, unlike the handled per-unit errors,
which yield the untouched element).  The unreachable remainder of the unit
is translated faithfully: match the extension, normalize, fetch, and
rewrite the `src` attribute to the data URL. -/
def cureImageStep (get : String → HTTPResult) (origin : GoURL) (img : Element) :
    Except String (List Element) :=
  if img.tag == "img" then
    match getAttr img "src" with
    | none => Except.ok [img]
    | some src =>
      match makeSlice isImageExtension.length 0 with
      | Except.error panicMsg => Except.error panicMsg
      | Except.ok initial =>
        let imgExtensions := initial ++ isImageExtension.map (fun kv => "." ++ kv.1)
        match hasExtension src imgExtensions with
        | Except.error _ => Except.ok [img]
        | Except.ok matchedExtension =>
          if matchedExtension != "" then
            match normalizeSourceUrl src origin with
            | Except.error _ => Except.ok [img]
            | Except.ok normalizedSrc =>
              match fetch get normalizedSrc with
              | Except.error _ => Except.ok [img]
              | Except.ok source =>
                Except.ok [setAttr img "src" (imageDataUrl matchedExtension source)]
          else
            Except.ok [img]
  else
    Except.ok [img]

/-- Embedding of `cureImages` over the sibling list; a panic in any unit
crashes the process, modelled by propagating the error. -/
def cureImagesDoc (get : String → HTTPResult) (origin : GoURL) :
    List Element → Except String (List Element)
  | [] => Except.ok []
  | e :: rest =>
    match cureImageStep get origin e with
    | Except.error panicMsg => Except.error panicMsg
    | Except.ok es =>
      match cureImagesDoc get origin rest with
      | Except.error panicMsg => Except.error panicMsg
      | Except.ok rs => Except.ok (es ++ rs)

/-- Embedding of `cureAssets` (antidote.go, lines 74-94): the three cure
routines run in goroutines over disjoint tag classes (`link`, `script`,
`img`) and never touch another class's elements or each other's
insertions, so their joint effect on the tree equals this sequential
composition; the `WaitGroup` join means all three finish before `Cure`
proceeds.  A panic in any image unit crashes the process (error case). -/
def cureAssets (get : String → HTTPResult) (origin : GoURL) (doc : List Element) :
    Except String (List Element) :=
  cureImagesDoc get origin (cureJSDoc get origin (cureCSSDoc get origin doc))

/-! ## The orchestrator: `Ingredients`, `Antidote`, `Mix`, `Cure` -/

/-- Embedding of the `Ingredients` options object. -/
structure Ingredients where
  URL : String
deriving DecidableEq

/-- Embedding of the `Antidote` object: option fields model the Go pointer
fields, which are nil until assigned. -/
structure Antidote where
  ingredients : Option Ingredients
  parsedUrl : Option GoURL
  website : Option (List Element)
  curedHtml : String
deriving DecidableEq

/-- Embedding of `New`: a zero-valued `Antidote`. -/
def Antidote.new : Antidote :=
  ⟨none, none, none, ""⟩

/-- Embedding of `Mix`: store the ingredients. -/
def Mix (a : Antidote) (ingredients : Ingredients) : Antidote :=
  ⟨some ingredients, a.parsedUrl, a.website, a.curedHtml⟩

/-- Embedding of `Html`: the cured HTML, empty before a successful cure. -/
def Html (a : Antidote) : String :=
  a.curedHtml

/-- Outcome of one `Cure` call: a returned document string, a returned
error, or a run-time panic that crashes the process (so `Cure` never
actually returns in that case). -/
inductive CureResult where
  | ok : String → CureResult
  | err : String → CureResult
  | panicked : String → CureResult
deriving DecidableEq

/-- Embedding of `Cure` (antidote.go, lines 46-71).  The external
collaborators are parameters: `loadPage` models `goquery.NewDocument`
(fetch and parse the page into a tree), `render` models
`Document.Html()` (serialize the tree), and `get` models `http.Get`
inside the asset fetcher.  The returned `Antidote` is the state of the
receiver after the call, mirroring the field assignments of the Go
method. -/
def Cure (loadPage : String → Except String (List Element))
    (render : List Element → Except String String)
    (get : String → HTTPResult) (a : Antidote) : Antidote × CureResult :=
  match a.ingredients with
  | none => (a, CureResult.err "Antidote.Mix() must be called before Antidote.Cure().")
  | some ingredients =>
    match urlParse ingredients.URL with
    | Except.error e => (⟨a.ingredients, none, a.website, a.curedHtml⟩, CureResult.err e)
    | Except.ok parsedUrl =>
      match loadPage ingredients.URL with
      | Except.error e =>
        (⟨a.ingredients, some parsedUrl, none, a.curedHtml⟩, CureResult.err e)
      | Except.ok website =>
        match cureAssets get parsedUrl website with
        | Except.error panicMsg =>
          (⟨a.ingredients, some parsedUrl, some website, a.curedHtml⟩,
           CureResult.panicked panicMsg)
        | Except.ok cured =>
          match render cured with
          | Except.error e =>
            (⟨a.ingredients, some parsedUrl, some cured, a.curedHtml⟩, CureResult.err e)
          | Except.ok html =>
            (⟨a.ingredients, some parsedUrl, some cured, html⟩, CureResult.ok html)

/-! ## Helper lemmas -/

/-- `hasExtension` returns the first candidate in list order once every
earlier candidate fails to match. -/
theorem hasExtension_first (src ext : String) (post : List String)
    (hext : matchString ext src = Except.ok true) :
    ∀ pre : List String, (∀ p ∈ pre, matchString p src = Except.ok false) →
      hasExtension src (pre ++ ext :: post) = Except.ok ext := by
  intro pre
  induction pre with
  | nil =>
    intro _
    show hasExtension src (ext :: post) = Except.ok ext
    unfold hasExtension
    rw [hext]
  | cons p ps ih =>
    intro hpre
    show hasExtension src (p :: (ps ++ ext :: post)) = Except.ok ext
    unfold hasExtension
    rw [hpre p (List.mem_cons_self p ps)]
    exact ih (fun q hq => hpre q (List.mem_cons_of_mem p hq))

/-- `hasExtension` returns the empty string when no candidate matches. -/
theorem hasExtension_none (src : String) :
    ∀ exts : List String, (∀ p ∈ exts, matchString p src = Except.ok false) →
      hasExtension src exts = Except.ok "" := by
  intro exts
  induction exts with
  | nil => intro _; rfl
  | cons p ps ih =>
    intro h
    unfold hasExtension
    rw [h p (List.mem_cons_self p ps)]
    exact ih (fun q hq => h q (List.mem_cons_of_mem p hq))

/-- Unfolding equation of the unanchored search on a non-empty subject. -/
theorem searchFrom_cons (p : List PatChar) (c : Char) (t : List Char) :
    searchFrom p (c :: t) = (matchHere p (c :: t) || searchFrom p t) := rfl

/-- A match found in a suffix is found in the whole subject. -/
theorem searchFrom_extend (p : List PatChar) (pre s : List Char)
    (h : searchFrom p s = true) : searchFrom p (pre ++ s) = true := by
  induction pre with
  | nil => simpa using h
  | cons x xs ih =>
    rw [List.cons_append, searchFrom_cons, ih, Bool.or_true]

/-- The CSS cure distributes over concatenation of sibling lists. -/
theorem cureCSSDoc_append (get : String → HTTPResult) (origin : GoURL) (xs ys : List Element) :
    cureCSSDoc get origin (xs ++ ys)
      = cureCSSDoc get origin xs ++ cureCSSDoc get origin ys := by
  induction xs with
  | nil => rfl
  | cons e rest ih => simp [cureCSSDoc, ih, List.append_assoc]

/-- The JS cure distributes over concatenation of sibling lists. -/
theorem cureJSDoc_append (get : String → HTTPResult) (origin : GoURL) (xs ys : List Element) :
    cureJSDoc get origin (xs ++ ys)
      = cureJSDoc get origin xs ++ cureJSDoc get origin ys := by
  induction xs with
  | nil => rfl
  | cons e rest ih => simp [cureJSDoc, ih, List.append_assoc]

/-- A fully successful CSS unit replaces its link element by exactly the
inline style element carrying the fetched text. -/
theorem cureCSSStep_success (get : String → HTTPResult) (origin : GoURL) (link : Element)
    (href u text : String)
    (htag : link.tag = "link") (hattr : getAttr link "href" = some href)
    (hext : hasExtension href [".css"] = Except.ok ".css")
    (hnorm : normalizeSourceUrl href origin = Except.ok u)
    (hfetch : fetch get u = Except.ok text) :
    cureCSSStep get origin link = [styleElement text] := by
  simp [cureCSSStep, htag, hattr, hext, hnorm, hfetch]

/-- A fully successful JS unit replaces its script element by exactly the
inline script element carrying the fetched text. -/
theorem cureJSStep_success (get : String → HTTPResult) (origin : GoURL) (script : Element)
    (src u text : String)
    (htag : script.tag = "script") (hattr : getAttr script "src" = some src)
    (hext : hasExtension src [".js"] = Except.ok ".js")
    (hnorm : normalizeSourceUrl src origin = Except.ok u)
    (hfetch : fetch get u = Except.ok text) :
    cureJSStep get origin script = [scriptElement text] := by
  simp [cureJSStep, htag, hattr, hext, hnorm, hfetch]

/-! ## The claims -/

/-- Claim C1: for every img element whose src is successfully
extension-matched, normalized and fetched, the element is retained with
only its src rewritten to a data URL.  Code bug: the image unit panics
first.  Evaluating the embedded unit at a concrete img element with a src
attribute shows the `make([]string, len(isImageExtension), 0)` call stops
the unit with the makeslice run-time panic before extension matching is
ever reached, so no image is ever rewritten and the process crashes. -/
theorem c1_image_unit_panics_in_makeslice :
    cureImageStep (fun _ => HTTPResult.response 200 (Except.ok "IMGBYTES")) ⟨"b.com"⟩
      ⟨"img", [("src", "a.png")], ""⟩
      = Except.error "makeslice: cap out of range" := rfl

/-- Claim C2 counterexample: the pinned equation
`normalize("/x.css", host "b.com") = "http://b.com/x.css"` is false; the
code concatenates host, "/" and the untouched absolute path, producing a
double slash. -/
theorem c2_pinned_equation_counterexample :
    normalizeSourceUrl "/x.css" ⟨"b.com"⟩ = Except.ok "http://b.com//x.css"
  ∧ normalizeSourceUrl "/x.css" ⟨"b.com"⟩ ≠ Except.ok "http://b.com/x.css" := by
  exact ⟨rfl, by decide⟩

/-- Claim C2 (amended): the three pinned normalizer equations, with the
second corrected to the double-slash result the code actually produces:
scheme-relative "//a.com/x.css" yields "http://a.com/x.css" for every
origin; "/x.css" against host "b.com" yields "http://b.com//x.css"; and
"../../x.css" against host "b.com" yields "http://b.com/x.css" with all
traversal segments stripped. -/
theorem c2_normalize_pinned_amended (origin : GoURL) :
    normalizeSourceUrl "//a.com/x.css" origin = Except.ok "http://a.com/x.css"
  ∧ normalizeSourceUrl "/x.css" ⟨"b.com"⟩ = Except.ok "http://b.com//x.css"
  ∧ normalizeSourceUrl "../../x.css" ⟨"b.com"⟩ = Except.ok "http://b.com/x.css" :=
  ⟨rfl, rfl, rfl⟩

/-- Claim C3 counterexample: a received response with the non-success
status 404 is not reported as an error; `fetch` returns its body as a
success, because the status code is never examined. -/
theorem c3_fetch_ignores_status_counterexample :
    fetch (fun _ => HTTPResult.response 404 (Except.ok "notfound")) "http://a.com/x.css"
      = Except.ok "notfound" := rfl

/-- Claim C3 (amended): `fetch` returns the full response body whenever a
response is received, regardless of its HTTP status, and fails exactly
when the transport reports an error or reading the body fails (the body
read result is passed through unchanged). -/
theorem c3_fetch_amended (get : String → HTTPResult) (url : String) :
    (∀ (statusCode : Nat) (body : Except String String),
        get url = HTTPResult.response statusCode body → fetch get url = body)
  ∧ (∀ e : String, get url = HTTPResult.transportError e → fetch get url = Except.error e) := by
  constructor
  · intro statusCode body hresp
    unfold fetch
    rw [hresp]
    cases body <;> rfl
  · intro e htr
    unfold fetch
    rw [htr]

/-- Claim C3 witness: the amended theorem applied to a concrete transport
returning status 500 with body "oops". -/
theorem c3_fetch_amended_witness :
    fetch (fun _ => HTTPResult.response 500 (Except.ok "oops")) "http://a.com/x.css"
      = Except.ok "oops" :=
  (c3_fetch_amended (fun _ => HTTPResult.response 500 (Except.ok "oops"))
    "http://a.com/x.css").1 500 (Except.ok "oops") rfl

/-- Claim C4: for every link element whose href matches ".css" and every
script element whose src matches ".js" with a successful fetch, the cure
routine removes the original element and puts exactly one new inline
style/script element carrying the fetched text in its place, leaving all
siblings to their own independent processing. -/
theorem c4_inline_replacement :
    (∀ (get : String → HTTPResult) (origin : GoURL) (pre post : List Element)
        (link : Element) (href u text : String),
        link.tag = "link" → getAttr link "href" = some href →
        hasExtension href [".css"] = Except.ok ".css" →
        normalizeSourceUrl href origin = Except.ok u →
        fetch get u = Except.ok text →
        cureCSSDoc get origin (pre ++ link :: post)
          = cureCSSDoc get origin pre ++ styleElement text :: cureCSSDoc get origin post)
  ∧ (∀ (get : String → HTTPResult) (origin : GoURL) (pre post : List Element)
        (script : Element) (src u text : String),
        script.tag = "script" → getAttr script "src" = some src →
        hasExtension src [".js"] = Except.ok ".js" →
        normalizeSourceUrl src origin = Except.ok u →
        fetch get u = Except.ok text →
        cureJSDoc get origin (pre ++ script :: post)
          = cureJSDoc get origin pre ++ scriptElement text :: cureJSDoc get origin post) := by
  constructor
  · intro get origin pre post link href u text h1 h2 h3 h4 h5
    rw [cureCSSDoc_append get origin pre (link :: post)]
    have hcons : cureCSSDoc get origin (link :: post)
        = cureCSSStep get origin link ++ cureCSSDoc get origin post := rfl
    rw [hcons, cureCSSStep_success get origin link href u text h1 h2 h3 h4 h5]
    rfl
  · intro get origin pre post script src u text h1 h2 h3 h4 h5
    rw [cureJSDoc_append get origin pre (script :: post)]
    have hcons : cureJSDoc get origin (script :: post)
        = cureJSStep get origin script ++ cureJSDoc get origin post := rfl
    rw [hcons, cureJSStep_success get origin script src u text h1 h2 h3 h4 h5]
    rfl

/-- Claim C4 witness: the theorem applied to a one-element document for
each class, with a transport serving concrete CSS and JS texts. -/
theorem c4_inline_replacement_witness :
    cureCSSDoc
        (fun u => if u == "http://b.com/a.css"
          then HTTPResult.response 200 (Except.ok "csstext")
          else HTTPResult.response 200 (Except.ok "jstext"))
        ⟨"b.com"⟩ [⟨"link", [("href", "a.css")], ""⟩]
      = [styleElement "csstext"]
  ∧ cureJSDoc
        (fun u => if u == "http://b.com/a.css"
          then HTTPResult.response 200 (Except.ok "csstext")
          else HTTPResult.response 200 (Except.ok "jstext"))
        ⟨"b.com"⟩ [⟨"script", [("src", "a.js")], ""⟩]
      = [scriptElement "jstext"] := by
  constructor
  · exact c4_inline_replacement.1
      (fun u => if u == "http://b.com/a.css"
        then HTTPResult.response 200 (Except.ok "csstext")
        else HTTPResult.response 200 (Except.ok "jstext"))
      ⟨"b.com"⟩ [] [] ⟨"link", [("href", "a.css")], ""⟩ "a.css" "http://b.com/a.css" "csstext"
      rfl rfl (by decide) (by decide) (by decide)
  · exact c4_inline_replacement.2
      (fun u => if u == "http://b.com/a.css"
        then HTTPResult.response 200 (Except.ok "csstext")
        else HTTPResult.response 200 (Except.ok "jstext"))
      ⟨"b.com"⟩ [] [] ⟨"script", [("src", "a.js")], ""⟩ "a.js" "http://b.com/a.js" "jstext"
      rfl rfl (by decide) (by decide) (by decide)

/-- Claim C5: per-element failures are fail-open and never the cure's
failure.  Code bug: the link unit whose fetch fails is indeed left
untouched (first conjunct), but on a document that also carries an img
element with a src attribute the image unit's makeslice panic crashes the
whole cure, so `Cure` does not return a serialized document string
(second conjunct). -/
theorem c5_failopen_link_but_cure_panics :
    cureCSSDoc (fun _ => HTTPResult.transportError "connection refused") ⟨"b.com"⟩
        [⟨"link", [("href", "a.css")], ""⟩]
      = [⟨"link", [("href", "a.css")], ""⟩]
  ∧ (Cure
      (fun _ => Except.ok
        [⟨"link", [("href", "a.css")], ""⟩, ⟨"img", [("src", "b.png")], ""⟩])
      (fun _ => Except.ok "rendered")
      (fun _ => HTTPResult.transportError "connection refused")
      (Mix Antidote.new ⟨"http://b.com"⟩)).2
      = CureResult.panicked "makeslice: cap out of range" :=
  ⟨rfl, rfl⟩

/-- Claim C6: `hasExtension` returns the first candidate in list order
whose pattern matches anywhere in the reference, returns the empty string
when none matches, fails on a structurally invalid candidate pattern, and
is case-sensitive: "style.CSS?v=1" does not match ".css". -/
theorem c6_hasExtension_contract :
    (∀ (src ext : String) (pre post : List String),
        (∀ p ∈ pre, matchString p src = Except.ok false) →
        matchString ext src = Except.ok true →
        hasExtension src (pre ++ ext :: post) = Except.ok ext)
  ∧ (∀ (src : String) (exts : List String),
        (∀ p ∈ exts, matchString p src = Except.ok false) →
        hasExtension src exts = Except.ok "")
  ∧ hasExtension "style.css" ["("]
      = Except.error "error parsing regexp: unsupported or invalid pattern: ("
  ∧ hasExtension "style.CSS?v=1" [".css"] = Except.ok "" := by
  refine ⟨?_, ?_, rfl, rfl⟩
  · intro src ext pre post hpre hext
    exact hasExtension_first src ext post hext pre hpre
  · intro src exts h
    exact hasExtension_none src exts h

/-- Claim C6 witness: the first-match part applied to the reference
"a.css" with the ordered candidates [".png", ".css", ".gif"]. -/
theorem c6_hasExtension_contract_witness :
    hasExtension "a.css" [".png", ".css", ".gif"] = Except.ok ".css" :=
  c6_hasExtension_contract.1 "a.css" ".css" [".png"] [".gif"] (by decide) (by decide)

/-- Claim C7: invoking `Cure` on an unconfigured core returns the
configuration error with the receiver unchanged, and the core remains
usable: after a `Mix` with a valid target (and collaborators that load
and render successfully) the same `Cure` returns the cured document. -/
theorem c7_cure_before_mix (loadPage : String → Except String (List Element))
    (render : List Element → Except String String) (get get2 : String → HTTPResult) :
    Cure loadPage render get Antidote.new
      = (Antidote.new, CureResult.err "Antidote.Mix() must be called before Antidote.Cure().")
  ∧ (Cure (fun _ => Except.ok []) (fun _ => Except.ok "<html></html>") get2
      (Mix Antidote.new ⟨"http://b.com"⟩)).2 = CureResult.ok "<html></html>" :=
  ⟨rfl, rfl⟩

/-- Claim C9: `Cure` never panics.  Code bug: on any document holding an
img element with a src attribute, the image unit's
`make([]string, 12, 0)` panics at run time and the panic (raised inside a
goroutine) crashes the process instead of completing or returning an
error. -/
theorem c9_cure_panics_on_image_document :
    (Cure (fun _ => Except.ok [⟨"img", [("src", "a.png")], ""⟩])
      (fun _ => Except.ok "rendered")
      (fun _ => HTTPResult.response 200 (Except.ok "IMGBYTES"))
      (Mix Antidote.new ⟨"http://b.com"⟩)).2
      = CureResult.panicked "makeslice: cap out of range" := rfl

/-- Claim C10 counterexample: the reference "\ncss" contains a character
immediately followed by "css", yet `hasExtension` returns the empty
string, because Go's `.` wildcard does not match a newline. -/
theorem c10_newline_counterexample :
    hasExtension "\ncss" [".css"] = Except.ok "" := rfl

/-- Claim C10 (amended): candidate extensions are regular expressions, not
literal substrings: the `.` of the token matches any single character
other than newline, so every reference containing some non-newline
character immediately followed by "css" matches ".css" even when the
literal substring ".css" is absent. -/
theorem c10_dot_matches_any_nonnewline (pre post : List Char) (c : Char) (h : c ≠ '\n') :
    hasExtension (String.mk (pre ++ c :: 'c' :: 's' :: 's' :: post)) [".css"]
      = Except.ok ".css" := by
  have hcomp : compilePattern ".css"
      = Except.ok [PatChar.dot, PatChar.lit 'c', PatChar.lit 's', PatChar.lit 's'] := rfl
  have hmh : matchHere [PatChar.dot, PatChar.lit 'c', PatChar.lit 's', PatChar.lit 's']
      (c :: 'c' :: 's' :: 's' :: post) = true := by
    simp [matchHere, patCharMatches, h]
  have hsearch : searchFrom [PatChar.dot, PatChar.lit 'c', PatChar.lit 's', PatChar.lit 's']
      (pre ++ c :: 'c' :: 's' :: 's' :: post) = true := by
    apply searchFrom_extend
    rw [searchFrom_cons, hmh, Bool.true_or]
  have hms : matchString ".css" (String.mk (pre ++ c :: 'c' :: 's' :: 's' :: post))
      = Except.ok true := by
    unfold matchString
    rw [hcomp]
    exact congrArg Except.ok hsearch
  unfold hasExtension
  rw [hms]

/-- Claim C10 witness: the amended theorem applied to "xcss.json", whose
'x' is matched by the `.` of the token ".css". -/
theorem c10_dot_witness :
    hasExtension "xcss.json" [".css"] = Except.ok ".css" :=
  c10_dot_matches_any_nonnewline [] ['.', 'j', 's', 'o', 'n'] 'x' (by decide)
